import Mathlib

/-!
# Verification of the Happysearch core (`src/Happysearch.py`)

A shallow embedding of the Happysearch search engine. Pure string helpers
from Python's standard library (`urllib.parse.quote`, `str.replace`,
`str.strip`) are embedded as executable Lean functions on `List Char` /
`String`. The network fetch performed by `Happysearch._get_json` is the only
effect; it is modelled by passing the already-parsed outcome
(`Except Unit WikiPayload`) into the functions that consume it, and the
wall-clock duration measured by `time.perf_counter` is passed as a
rational number of seconds.
-/

set_option autoImplicit false

/-- Uppercase hexadecimal digit, as produced by `urllib.parse.quote`. -/
def hexDigitChar (n : Nat) : Char :=
  match n with
  | 0 => '0' | 1 => '1' | 2 => '2' | 3 => '3' | 4 => '4'
  | 5 => '5' | 6 => '6' | 7 => '7' | 8 => '8' | 9 => '9'
  | 10 => 'A' | 11 => 'B' | 12 => 'C' | 13 => 'D' | 14 => 'E'
  | _ => 'F'

/-- `%XX` escape for one byte. -/
def percentByte (b : Nat) : List Char :=
  ['%', hexDigitChar (b / 16), hexDigitChar (b % 16)]

/-- UTF-8 encoding of a Unicode code point, as a list of byte values. -/
def utf8Encode (n : Nat) : List Nat :=
  if n < 128 then [n]
  else if n < 2048 then [192 + n / 64, 128 + n % 64]
  else if n < 65536 then [224 + n / 4096, 128 + n / 64 % 64, 128 + n % 64]
  else [240 + n / 262144, 128 + n / 4096 % 64, 128 + n / 64 % 64, 128 + n % 64]

/-- The characters `urllib.parse.quote` leaves unescaped with its default
`safe='/'`: the ASCII letters and digits, `_.-~` (always safe), and `/`. -/
def isUrlSafeChar (c : Char) : Bool :=
  c.isAlpha || c.isDigit || c == '_' || c == '.' || c == '-' || c == '~' || c == '/'

/-- Embedding of `urllib.parse.quote(s)` (default `safe='/'`): every unsafe
character is replaced by the `%XX` escapes of its UTF-8 bytes. -/
def pyQuote (s : String) : String :=
  String.mk ((s.data.map (fun c =>
    if isUrlSafeChar c then [c]
    else ((utf8Encode c.toNat).map percentByte).flatten)).flatten)

/-- Left-to-right scan replacing each leftmost, non-overlapping occurrence of
`old` by `new`, with explicit fuel (the fuel is always at least the length of
the list, so the `0` arm is never reached from `pyReplace`). The `old ≠ []`
guard keeps the empty pattern (never used by the program) from consuming
fuel without progress. -/
def pyReplaceAux (old new : List Char) : Nat → List Char → List Char
  | _, [] => []
  | 0, l => l
  | fuel + 1, c :: rest =>
    if old ≠ [] ∧ old.isPrefixOf (c :: rest) then
      new ++ pyReplaceAux old new fuel ((c :: rest).drop old.length)
    else
      c :: pyReplaceAux old new fuel rest

/-- Embedding of Python `str.replace` on `List Char` (for non-empty `old`):
replaces every leftmost, non-overlapping occurrence of `old` by `new`. -/
def pyReplace (old new s : List Char) : List Char :=
  pyReplaceAux old new s.length s

/-- Embedding of Python `s.replace(old, new)` on `String`. -/
def pyReplaceS (s old new : String) : String :=
  String.mk (pyReplace old.data new.data s.data)

/-- The whitespace set of Python `str.strip()` (CPython's
`Py_UNICODE_ISSPACE`): tab through carriage return (U+0009-U+000D), the
information separators U+001C-U+001F, space, next line U+0085, no-break
space U+00A0, Ogham space mark U+1680, the U+2000-U+200A spaces, line and
paragraph separators U+2028/U+2029, narrow no-break space U+202F, medium
mathematical space U+205F, and ideographic space U+3000. -/
def pyIsSpace (c : Char) : Bool :=
  decide ((9 ≤ c.toNat ∧ c.toNat ≤ 13) ∨ (28 ≤ c.toNat ∧ c.toNat ≤ 32) ∨
    c.toNat = 133 ∨ c.toNat = 160 ∨ c.toNat = 5760 ∨
    (8192 ≤ c.toNat ∧ c.toNat ≤ 8202) ∨ c.toNat = 8232 ∨ c.toNat = 8233 ∨
    c.toNat = 8239 ∨ c.toNat = 8287 ∨ c.toNat = 12288)

/-- Embedding of Python `str.strip()`: drop whitespace at both ends. -/
def pyStrip (s : String) : String :=
  String.mk (((s.data.dropWhile pyIsSpace).reverse.dropWhile pyIsSpace).reverse)

/-- Embedding of Python `int()` on a rational: truncation toward zero. -/
def pyInt (q : ℚ) : ℤ :=
  if 0 ≤ q then ⌊q⌋ else ⌈q⌉

/-- The `SearchResult` dataclass (`src/Happysearch.py` lines 20-24). -/
structure SearchResult where
  title : String
  snippet : String
  url : String
deriving DecidableEq

/-- One record of the upstream payload's `query.search` list: `row.get("title", ...)`
and `row.get("snippet", ...)` may each be absent. -/
structure WikiRow where
  title : Option String
  snippet : Option String
deriving DecidableEq

/-- The `query` object of the upstream payload; its `search` list may be absent. -/
structure WikiQuery where
  search : Option (List WikiRow)
deriving DecidableEq

/-- The parsed upstream JSON payload; its `query` object may be absent. -/
structure WikiPayload where
  query : Option WikiQuery
deriving DecidableEq

/-- `payload.get("query", {}).get("search", [])` (`src/Happysearch.py` line 56). -/
def payloadRows (payload : WikiPayload) : List WikiRow :=
  match payload.query with
  | none => []
  | some q => q.search.getD []

/-- The highlight-markup opening tag stripped from snippets (line 59). -/
def spanOpenTag : String := "<span class=\"searchmatch\">"

/-- The highlight-markup closing tag stripped from snippets (line 59). -/
def spanCloseTag : String := "</span>"

/-- The loop body of `Happysearch._wikipedia_results` (lines 57-61): one
`SearchResult` from one upstream record. -/
def wikiRowResult (row : WikiRow) : SearchResult :=
  { title := row.title.getD "Untitled"
    snippet := pyReplaceS (pyReplaceS (row.snippet.getD "") spanOpenTag "") spanCloseTag ""
    url := "https://en.wikipedia.org/wiki/" ++
      pyQuote (pyReplaceS (row.title.getD "Untitled") " " "_") }

/-- The request parameters built by `urlencode` in `_wikipedia_results`
(lines 43-52); only the request carries `limit`, never the parsing. -/
def wikipediaRequestParams (query : String) (limit : Nat) : List (String × String) :=
  [("action", "query"), ("list", "search"), ("srsearch", query),
   ("srlimit", toString limit), ("utf8", ""), ("format", "json")]

/-- Embedding of `Happysearch._wikipedia_results` (lines 55-62) applied to the
payload the network returned: the accumulating `items.append` loop. `query`
and `limit` shape only the outgoing request (`wikipediaRequestParams`). -/
def wikipediaResults (query : String) (limit : Nat) (payload : WikiPayload) :
    List SearchResult :=
  (payloadRows payload).foldl (fun items row => items ++ [wikiRowResult row]) []

/-- The two synthesized results of the `except` branch of `Happysearch.search`
(lines 69-80). -/
def fallbackResults (query : String) : List SearchResult :=
  [{ title := "Search Wikipedia for: " ++ query
     snippet := "Live search source unavailable here, so use this direct Wikipedia query link."
     url := "https://en.wikipedia.org/w/index.php?search=" ++ pyQuote query },
   { title := "Search DuckDuckGo for: " ++ query
     snippet := "Open web results directly in DuckDuckGo."
     url := "https://duckduckgo.com/?q=" ++ pyQuote query }]

/-- The response dictionary returned by `Happysearch.search` (lines 84-89). -/
structure SearchResponse where
  query : String
  engine : String
  elapsed_ms : ℤ
  results : List SearchResult
deriving DecidableEq

/-- Embedding of `Happysearch.search` (lines 64-89). The network call's
outcome is `fetched`: `.ok payload` when `_wikipedia_results` returned
normally with parsed payload `payload`, `.error ()` when any exception was
raised; `elapsedSeconds` is the measured `perf_counter` difference. -/
def search (query : String) (fetched : Except Unit WikiPayload)
    (elapsedSeconds : ℚ) : SearchResponse :=
  { query := query
    engine := "Happysearch"
    elapsed_ms := pyInt (elapsedSeconds * 1000)
    results :=
      match fetched with
      | .ok payload => wikipediaResults query 7 payload
      | .error _ => fallbackResults query }

/-- `parse_qs(qs).get(key, [""])[0]` (line 135) over `params`, the ordered,
decoded `name=value` fields of the query string. `parse_qs` with its default
`keep_blank_values=False` drops every field whose value is blank (a raw
value is blank exactly when its decoded value is: un-quoting never empties a
non-empty value), and the `[0]` then takes the first kept value bound to
`key`, if any. -/
def qsFirst (params : List (String × String)) (key : String) : Option String :=
  ((params.filter (fun p => p.2 != "")).find? (fun p => p.1 == key)).map (fun p => p.2)

/-- The observable outcome of the `/api/search` branch of `do_GET`: a JSON
error body `{"error": message}` with a status, or a JSON-serialized
`SearchResponse` with a status. -/
inductive HttpOut where
  | errorJson : Nat → String → HttpOut
  | okJson : Nat → SearchResponse → HttpOut
deriving DecidableEq

/-- Embedding of the `/api/search` branch of `HappysearchHandler.do_GET`
(lines 134-143): `params` are the parsed query-string pairs, `fetched` and
`elapsedSeconds` feed the engine's `search` as above. -/
def doGetApiSearch (params : List (String × String))
    (fetched : Except Unit WikiPayload) (elapsedSeconds : ℚ) : HttpOut :=
  let rawQuery := (qsFirst params "q").getD ""
  let query := pyStrip rawQuery
  if query = "" then HttpOut.errorJson 400 "Query parameter 'q' is required."
  else HttpOut.okJson 200 (search query fetched elapsedSeconds)

/-- `s` contains `pat` as a contiguous substring. -/
def hasOccur (pat s : List Char) : Prop := ∃ a b, s = a ++ pat ++ b

/-! ## Helper lemmas -/

theorem intercalateSingle {α : Type} (sep x : List α) :
    List.intercalate sep [x] = x := by
  simp [List.intercalate, List.intersperse]

theorem intercalateConsOfNeNil {α : Type} (sep x : List α) (xs : List (List α))
    (h : xs ≠ []) :
    List.intercalate sep (x :: xs) = x ++ sep ++ List.intercalate sep xs := by
  cases xs with
  | nil => exact absurd rfl h
  | cons y ys =>
    simp [List.intercalate, List.intersperse_cons_cons, List.append_assoc]

theorem intercalateConsHead {α : Type} (sep : List α) (c : α) (d : List α)
    (ds : List (List α)) :
    List.intercalate sep ((c :: d) :: ds) = c :: List.intercalate sep (d :: ds) := by
  cases ds with
  | nil => rw [intercalateSingle, intercalateSingle]
  | cons e es =>
    rw [intercalateConsOfNeNil sep (c :: d) (e :: es) (by simp),
      intercalateConsOfNeNil sep d (e :: es) (by simp)]
    simp [List.append_assoc]

theorem pyReplaceAux_congr (old new : List Char) :
    ∀ (f₁ : Nat) (l : List Char) (f₂ : Nat), l.length ≤ f₁ → l.length ≤ f₂ →
      pyReplaceAux old new f₁ l = pyReplaceAux old new f₂ l := by
  intro f₁
  induction f₁ with
  | zero =>
    intro l f₂ h1 _
    have hl : l = [] := List.eq_nil_of_length_eq_zero (Nat.le_zero.mp h1)
    subst hl
    cases f₂ <;> rfl
  | succ n ih =>
    intro l f₂ h1 h2
    cases l with
    | nil => cases f₂ <;> rfl
    | cons c rest =>
      cases f₂ with
      | zero => simp at h2
      | succ m =>
        have hr1 : rest.length ≤ n := by simpa using h1
        have hr2 : rest.length ≤ m := by simpa using h2
        by_cases hc : old ≠ [] ∧ old.isPrefixOf (c :: rest)
        · have hlen : 0 < old.length := List.length_pos.mpr hc.1
          have hd1 : ((c :: rest).drop old.length).length ≤ n := by
            rw [List.length_drop]
            simp only [List.length_cons]
            omega
          have hd2 : ((c :: rest).drop old.length).length ≤ m := by
            rw [List.length_drop]
            simp only [List.length_cons]
            omega
          simp only [pyReplaceAux, if_pos hc]
          rw [ih _ _ hd1 hd2]
        · simp only [pyReplaceAux, if_neg hc]
          rw [ih rest m hr1 hr2]

theorem pyReplace_nil (old new : List Char) : pyReplace old new [] = [] := rfl

theorem pyReplace_cons_pos (old new s : List Char) (h1 : old ≠ [])
    (h2 : old.isPrefixOf s) :
    pyReplace old new s = new ++ pyReplace old new (s.drop old.length) := by
  cases s with
  | nil =>
    cases old with
    | nil => exact absurd rfl h1
    | cons o os => simp [List.isPrefixOf] at h2
  | cons c rest =>
    have hlen : 0 < old.length := List.length_pos.mpr h1
    show pyReplaceAux old new (c :: rest).length (c :: rest) = _
    simp only [List.length_cons, pyReplaceAux, if_pos (And.intro h1 h2)]
    congr 1
    apply pyReplaceAux_congr
    · rw [List.length_drop]
      simp only [List.length_cons]
      omega
    · exact Nat.le_refl _

theorem pyReplace_cons_neg (old new : List Char) (c : Char) (rest : List Char)
    (h : ¬ (old ≠ [] ∧ old.isPrefixOf (c :: rest))) :
    pyReplace old new (c :: rest) = c :: pyReplace old new rest := by
  show pyReplaceAux old new (c :: rest).length (c :: rest) = _
  simp only [List.length_cons, pyReplaceAux, if_neg h]
  rfl

theorem hasOccur_nil (pat : List Char) (hpat : pat ≠ []) : ¬ hasOccur pat [] := by
  rintro ⟨a, b, hab⟩
  rcases List.append_eq_nil.mp (List.append_eq_nil.mp hab.symm).1 with ⟨-, hp⟩
  exact hpat hp

/-- The replace-all scan with empty replacement deletes exactly the
leftmost, non-overlapping occurrences of `pat` and keeps everything else
verbatim: the input splits into pattern-free chunks separated by copies of
`pat`, and the output is the concatenation of those chunks. -/
theorem pyReplace_decomp (pat : List Char) (hpat : pat ≠ []) :
    ∀ (n : Nat) (s : List Char), s.length ≤ n →
      ∃ chunks : List (List Char), chunks ≠ [] ∧
        s = List.intercalate pat chunks ∧
        pyReplace pat [] s = chunks.flatten ∧
        ∀ c ∈ chunks, ¬ hasOccur pat c := by
  intro n
  induction n with
  | zero =>
    intro s hs
    have hl : s = [] := List.eq_nil_of_length_eq_zero (Nat.le_zero.mp hs)
    subst hl
    refine ⟨[[]], by simp, ?_, ?_, ?_⟩
    · rw [intercalateSingle]
    · rw [pyReplace_nil]
      simp
    · intro c hc
      rw [List.mem_singleton] at hc
      subst hc
      exact hasOccur_nil pat hpat
  | succ n ih =>
    intro s hs
    cases s with
    | nil =>
      refine ⟨[[]], by simp, ?_, ?_, ?_⟩
      · rw [intercalateSingle]
      · rw [pyReplace_nil]
        simp
      · intro c hc
        rw [List.mem_singleton] at hc
        subst hc
        exact hasOccur_nil pat hpat
    | cons c rest =>
      by_cases hp : pat.isPrefixOf (c :: rest)
      · obtain ⟨t, ht⟩ := List.isPrefixOf_iff_prefix.mp hp
        have hdrop : (c :: rest).drop pat.length = t := by
          rw [← ht]
          exact List.drop_left pat t
        have hlen : 0 < pat.length := List.length_pos.mpr hpat
        have htlen : t.length ≤ n := by
          have hlt := congrArg List.length ht
          simp only [List.length_append, List.length_cons] at hlt
          simp only [List.length_cons] at hs
          omega
        obtain ⟨chunks, hne, hi, hr, hfree⟩ := ih t htlen
        refine ⟨[] :: chunks, by simp, ?_, ?_, ?_⟩
        · rw [intercalateConsOfNeNil pat [] chunks hne]
          simp only [List.nil_append]
          rw [← hi]
          exact ht.symm
        · rw [pyReplace_cons_pos pat [] (c :: rest) hpat hp, hdrop, List.flatten_cons]
          simp only [List.nil_append]
          exact hr
        · intro x hx
          rcases List.mem_cons.mp hx with h | h
          · subst h
            exact hasOccur_nil pat hpat
          · exact hfree x h
      · have hs' : rest.length ≤ n := by
          simp only [List.length_cons] at hs
          omega
        obtain ⟨chunks, hne, hi, hr, hfree⟩ := ih rest hs'
        cases chunks with
        | nil => exact absurd rfl hne
        | cons d ds =>
          refine ⟨(c :: d) :: ds, by simp, ?_, ?_, ?_⟩
          · rw [intercalateConsHead pat c d ds, ← hi]
          · rw [pyReplace_cons_neg pat [] c rest (fun hcon => hp hcon.2), hr]
            simp [List.flatten_cons]
          · intro x hx
            rcases List.mem_cons.mp hx with h | h
            · subst h
              rintro ⟨a, b, hab⟩
              cases a with
              | nil =>
                simp only [List.nil_append] at hab
                have hpre : pat <+: c :: d := ⟨b, hab.symm⟩
                have hd : d <+: rest := by
                  rw [hi]
                  cases ds with
                  | nil =>
                    rw [intercalateSingle]
                  | cons e es =>
                    rw [intercalateConsOfNeNil pat d (e :: es) (by simp),
                      List.append_assoc]
                    exact List.prefix_append d _
                have hcd : c :: d <+: c :: rest := List.cons_prefix_cons.mpr ⟨rfl, hd⟩
                exact hp (List.isPrefixOf_iff_prefix.mpr (hpre.trans hcd))
              | cons y a' =>
                have hd2 : d = a' ++ pat ++ b := by
                  simp only [List.cons_append, List.cons.injEq] at hab
                  exact hab.2
                exact hfree d (List.mem_cons_self d ds) ⟨a', b, hd2⟩
            · exact hfree x (List.mem_cons_of_mem d h)

/-- The `items.append` accumulation of the parsing loop is `List.map`. -/
theorem foldlAppendMap {α β : Type} (f : α → β) :
    ∀ (l : List α) (init : List β),
      l.foldl (fun acc row => acc ++ [f row]) init = init ++ l.map f := by
  intro l
  induction l with
  | nil =>
    intro init
    simp
  | cons a as ih =>
    intro init
    simp only [List.foldl_cons, ih, List.map_cons]
    simp

/-- A single-character replace is a character map: `title.replace(' ', '_')`
turns every space into an underscore and keeps every other character. -/
theorem pyReplace_space (s : List Char) :
    pyReplace [' '] ['_'] s = s.map (fun c => if c = ' ' then '_' else c) := by
  induction s with
  | nil => rfl
  | cons c rest ih =>
    by_cases hc : c = ' '
    · subst hc
      rw [pyReplace_cons_pos [' '] ['_'] (' ' :: rest) (by simp) (by simp [List.isPrefixOf])]
      simp [ih]
    · rw [pyReplace_cons_neg [' '] ['_'] c rest ?_]
      · simp [ih, hc]
      · rintro ⟨-, h2⟩
        simp [List.isPrefixOf] at h2
        exact hc h2.symm

/-- After the blank-value filter of `parse_qs`, the first kept `"q"` binding
is the first non-blank one: pairs that are not `"q"`-keyed are skipped by
`find?`, and blank-valued pairs are dropped by the filter. -/
theorem qsFirst_head (ps₂ : List (String × String)) (v : String) (hv : v ≠ "") :
    ∀ ps₁ : List (String × String), (∀ p ∈ ps₁, p.1 ≠ "q" ∨ p.2 = "") →
      qsFirst (ps₁ ++ ("q", v) :: ps₂) "q" = some v := by
  intro ps₁
  induction ps₁ with
  | nil =>
    intro _
    simp only [List.nil_append, qsFirst]
    rw [List.filter_cons_of_pos (by simpa using hv),
      List.find?_cons_of_pos _ (by simp)]
    rfl
  | cons x xs ih =>
    intro h
    have hxs : ∀ p ∈ xs, p.1 ≠ "q" ∨ p.2 = "" :=
      fun p hp => h p (List.mem_cons_of_mem x hp)
    have ih' := ih hxs
    simp only [qsFirst] at ih'
    by_cases hx2 : x.2 = ""
    · simp only [qsFirst, List.cons_append]
      rw [List.filter_cons_of_neg (by simp [hx2])]
      exact ih'
    · have hx1 : x.1 ≠ "q" := (h x (List.mem_cons_self x xs)).resolve_right hx2
      have hfalse : (x.1 == "q") = false := beq_eq_false_iff_ne.mpr hx1
      simp only [qsFirst, List.cons_append]
      rw [List.filter_cons_of_pos (by simpa using hx2),
        List.find?_cons_of_neg _ (by simp [hfalse])]
      exact ih'

/-! ## Claims -/

/-- Claim C1: for every non-empty query string, `search` is total over its
domain: whatever the translator outcome (success with any payload, or
failure), it returns a complete `SearchResponse` carrying all four fields
`query`, `engine`, `elapsed_ms` and `results`, with `query` and `engine`
as constructed. -/
theorem search_total (q : String) (hq : q ≠ "") (fetched : Except Unit WikiPayload)
    (d : ℚ) :
    ∃ (e : ℤ) (rs : List SearchResult),
      search q fetched d =
        { query := q, engine := "Happysearch", elapsed_ms := e, results := rs } :=
  ⟨pyInt (d * 1000), _, rfl⟩

/-- Witness for C1: `search` on query `"a"` with a failed translator outcome. -/
theorem search_total_witness :
    ("a" : String) ≠ "" ∧
      ∃ (e : ℤ) (rs : List SearchResult),
        search "a" (Except.error ()) 0 =
          { query := "a", engine := "Happysearch", elapsed_ms := e, results := rs } :=
  ⟨by decide, search_total "a" (by decide) (Except.error ()) 0⟩

/-- Claim C2: when the translator fails, `search` returns exactly the two
fallback results, Wikipedia link first and DuckDuckGo link second, with the
stated titles and the query percent-encoded into both URLs. -/
theorem search_fallback_two (q : String) (hq : q ≠ "") (d : ℚ) :
    (search q (Except.error ()) d).results =
      [{ title := "Search Wikipedia for: " ++ q
         snippet := "Live search source unavailable here, so use this direct Wikipedia query link."
         url := "https://en.wikipedia.org/w/index.php?search=" ++ pyQuote q },
       { title := "Search DuckDuckGo for: " ++ q
         snippet := "Open web results directly in DuckDuckGo."
         url := "https://duckduckgo.com/?q=" ++ pyQuote q }] := rfl

/-- Witness for C2: the fallback pair for query `"rust"`. -/
theorem search_fallback_two_witness :
    ("rust" : String) ≠ "" ∧
      (search "rust" (Except.error ()) 0).results =
        [{ title := "Search Wikipedia for: " ++ "rust"
           snippet := "Live search source unavailable here, so use this direct Wikipedia query link."
           url := "https://en.wikipedia.org/w/index.php?search=" ++ pyQuote "rust" },
         { title := "Search DuckDuckGo for: " ++ "rust"
           snippet := "Open web results directly in DuckDuckGo."
           url := "https://duckduckgo.com/?q=" ++ pyQuote "rust" }] :=
  ⟨by decide, search_fallback_two "rust" (by decide) 0⟩

/-- Claim C3: the translator's parsing loop yields exactly one `SearchResult`
per record of `query.search`, in the records' own order, with no truncation,
reordering or filtering — for any `limit` argument, so also when the payload
holds more records than the limit that was sent. -/
theorem wikipediaResults_order (query : String) (limit : Nat) (payload : WikiPayload) :
    wikipediaResults query limit payload = (payloadRows payload).map wikiRowResult ∧
    (wikipediaResults query limit payload).length = (payloadRows payload).length := by
  have h1 : wikipediaResults query limit payload = (payloadRows payload).map wikiRowResult := by
    show (payloadRows payload).foldl (fun items row => items ++ [wikiRowResult row]) [] = _
    rw [foldlAppendMap wikiRowResult (payloadRows payload) []]
    simp
  exact ⟨h1, by rw [h1, List.length_map]⟩

/-- Claim C4: a missing title defaults to `"Untitled"`, a missing snippet
defaults to `""`, and the normalized snippet is the raw snippet with every
(leftmost, non-overlapping) occurrence of `<span class="searchmatch">`
removed, then every occurrence of `</span>` removed, all remaining
characters kept verbatim: the raw snippet splits into marker-free chunks
separated by the markers, and the normalized snippet is exactly the
concatenation of those chunks. -/
theorem snippet_markup_stripped (row : WikiRow) :
    (wikiRowResult row).title = row.title.getD "Untitled" ∧
    ∃ chunks₁ chunks₂ : List (List Char),
      (row.snippet.getD "").data = List.intercalate spanOpenTag.data chunks₁ ∧
      (∀ c ∈ chunks₁, ¬ hasOccur spanOpenTag.data c) ∧
      chunks₁.flatten = List.intercalate spanCloseTag.data chunks₂ ∧
      (∀ c ∈ chunks₂, ¬ hasOccur spanCloseTag.data c) ∧
      (wikiRowResult row).snippet = String.mk chunks₂.flatten := by
  constructor
  · rfl
  · have hopen : spanOpenTag.data ≠ [] := by decide
    have hclose : spanCloseTag.data ≠ [] := by decide
    obtain ⟨c₁, -, hi₁, hr₁, hf₁⟩ :=
      pyReplace_decomp spanOpenTag.data hopen (row.snippet.getD "").data.length
        (row.snippet.getD "").data (Nat.le_refl _)
    obtain ⟨c₂, -, hi₂, hr₂, hf₂⟩ :=
      pyReplace_decomp spanCloseTag.data hclose
        (pyReplace spanOpenTag.data [] (row.snippet.getD "").data).length
        (pyReplace spanOpenTag.data [] (row.snippet.getD "").data) (Nat.le_refl _)
    refine ⟨c₁, c₂, hi₁, hf₁, ?_, hf₂, ?_⟩
    · rw [← hr₁]
      exact hi₂
    · show String.mk (pyReplace spanCloseTag.data []
          (pyReplace spanOpenTag.data [] (row.snippet.getD "").data)) =
        String.mk c₂.flatten
      rw [hr₂]

/-- Claim C5: every derived article URL is the fixed base
`https://en.wikipedia.org/wiki/` followed by the title with each space
turned into an underscore and then percent-encoded, in that order; for the
raw title `"C++"` the URL is `https://en.wikipedia.org/wiki/C%2B%2B`. -/
theorem wiki_url_derivation :
    (∀ row : WikiRow, (wikiRowResult row).url =
      "https://en.wikipedia.org/wiki/" ++
        pyQuote (String.mk ((row.title.getD "Untitled").data.map
          (fun c => if c = ' ' then '_' else c)))) ∧
    (wikiRowResult { title := some "C++", snippet := none }).url =
      "https://en.wikipedia.org/wiki/C%2B%2B" := by
  constructor
  · intro row
    show "https://en.wikipedia.org/wiki/" ++
        pyQuote (String.mk (pyReplace " ".data "_".data (row.title.getD "Untitled").data)) = _
    rw [show (" " : String).data = [' '] from rfl,
      show ("_" : String).data = ['_'] from rfl, pyReplace_space]
  · decide

/-- Claim C6: a payload with no `query` object, no `search` list, or an empty
`search` list parses to an empty result sequence as a success, so the live
branch of `search` returns an empty `results`, while the fallback branch
always carries exactly two entries. -/
theorem empty_rows_ok (q : String) (d : ℚ) (payload : WikiPayload)
    (h : payload.query = none ∨ payload.query = some { search := none } ∨
      payload.query = some { search := some [] }) :
    (∀ limit : Nat, wikipediaResults q limit payload = []) ∧
    (search q (Except.ok payload) d).results = [] ∧
    (search q (Except.error ()) d).results.length = 2 := by
  have hrows : payloadRows payload = [] := by
    rcases h with h | h | h <;> simp [payloadRows, h]
  have hres : ∀ limit : Nat, wikipediaResults q limit payload = [] := by
    intro limit
    simp [wikipediaResults, hrows]
  refine ⟨hres, ?_, rfl⟩
  show wikipediaResults q 7 payload = []
  exact hres 7

/-- Witness for C6: the payload with no `query` object. -/
theorem empty_rows_ok_witness :
    (({ query := none } : WikiPayload).query = none ∨
      ({ query := none } : WikiPayload).query = some { search := none } ∨
      ({ query := none } : WikiPayload).query = some { search := some [] }) ∧
      ((∀ limit : Nat, wikipediaResults "a" limit { query := none } = []) ∧
        (search "a" (Except.ok { query := none }) 0).results = [] ∧
        (search "a" (Except.error ()) 0).results.length = 2) :=
  ⟨Or.inl rfl, empty_rows_ok "a" 0 { query := none } (Or.inl rfl)⟩

/-- Claim C7: on both the live and the fallback path, `elapsed_ms` is the
truncation of the measured duration in milliseconds — the floor, since the
measured duration is non-negative — hence a non-negative integer, and
`engine` is the constant `"Happysearch"`. -/
theorem elapsed_engine (q : String) (fetched : Except Unit WikiPayload) (d : ℚ)
    (hd : 0 ≤ d) :
    (search q fetched d).elapsed_ms = ⌊d * 1000⌋ ∧
    0 ≤ (search q fetched d).elapsed_ms ∧
    (search q fetched d).engine = "Happysearch" := by
  have hnn : (0 : ℚ) ≤ d * 1000 := mul_nonneg hd (by norm_num)
  have h1 : (search q fetched d).elapsed_ms = ⌊d * 1000⌋ := by
    show pyInt (d * 1000) = ⌊d * 1000⌋
    rw [pyInt, if_pos hnn]
  refine ⟨h1, ?_, rfl⟩
  rw [h1]
  exact Int.floor_nonneg.mpr hnn

/-- Witness for C7: a two-second duration on the fallback path. -/
theorem elapsed_engine_witness :
    (0 : ℚ) ≤ 2 ∧
      ((search "a" (Except.error ()) 2).elapsed_ms = ⌊(2 : ℚ) * 1000⌋ ∧
        0 ≤ (search "a" (Except.error ()) 2).elapsed_ms ∧
        (search "a" (Except.error ()) 2).engine = "Happysearch") :=
  ⟨by norm_num, elapsed_engine "a" (Except.error ()) 2 (by norm_num)⟩

/-- Claim C8: on `/api/search`, a missing or blank-after-trimming `q`
produces HTTP 400 with the exact error body, independently of the translator
outcome (so `search` is never consulted); a non-blank `q` produces HTTP 200
with the JSON-serialized `SearchResponse` for the trimmed query. -/
theorem api_search_validation (params : List (String × String))
    (fetched : Except Unit WikiPayload) (d : ℚ) :
    (pyStrip ((qsFirst params "q").getD "") = "" →
      doGetApiSearch params fetched d =
          HttpOut.errorJson 400 "Query parameter 'q' is required." ∧
        ∀ (fetched' : Except Unit WikiPayload) (d' : ℚ),
          doGetApiSearch params fetched' d' = doGetApiSearch params fetched d) ∧
    (pyStrip ((qsFirst params "q").getD "") ≠ "" →
      doGetApiSearch params fetched d =
        HttpOut.okJson 200 (search (pyStrip ((qsFirst params "q").getD "")) fetched d)) := by
  constructor
  · intro h
    constructor
    · simp [doGetApiSearch, h]
    · intro fetched' d'
      simp [doGetApiSearch, h]
  · intro h
    simp [doGetApiSearch, h]

/-- Witness for C8: no `q` pair at all, and a `q` whose value is a single
no-break space (`q=%C2%A0`, whitespace-only after decoding), both yield the
400 error response. -/
theorem api_search_validation_witness :
    (pyStrip ((qsFirst [] "q").getD "") = "" ∧
      doGetApiSearch [] (Except.error ()) 0 =
        HttpOut.errorJson 400 "Query parameter 'q' is required.") ∧
    (pyStrip ((qsFirst [("q", String.mk [Char.ofNat 160])] "q").getD "") = "" ∧
      doGetApiSearch [("q", String.mk [Char.ofNat 160])] (Except.error ()) 0 =
        HttpOut.errorJson 400 "Query parameter 'q' is required.") :=
  ⟨⟨rfl, ((api_search_validation [] (Except.error ()) 0).1 rfl).1⟩,
    ⟨by decide,
      ((api_search_validation [("q", String.mk [Char.ofNat 160])]
        (Except.error ()) 0).1 (by decide)).1⟩⟩

/-- Claim C9: the `query` field of the response echoes the input query
verbatim, on the live path and on the fallback path alike. -/
theorem search_query_echo (q : String) (hq : q ≠ "")
    (fetched : Except Unit WikiPayload) (d : ℚ) :
    (search q fetched d).query = q := rfl

/-- Witness for C9: the echo at query `"a"` on the fallback path. -/
theorem search_query_echo_witness :
    ("a" : String) ≠ "" ∧ (search "a" (Except.error ()) 0).query = "a" :=
  ⟨by decide, search_query_echo "a" (by decide) (Except.error ()) 0⟩

/-- Counterexample to C10 as stated: for `?q=&q=hello` the blank first
occurrence of `q` is dropped by `parse_qs` (default `keep_blank_values=False`),
so the later occurrence's value `"hello"` is the one used and the request
succeeds with query `"hello"` — the first occurrence's value `""` is not
used and a subsequent occurrence is not ignored. -/
theorem first_q_counterexample :
    qsFirst [("q", ""), ("q", "hello")] "q" = some "hello" ∧
    doGetApiSearch [("q", ""), ("q", "hello")] (Except.error ()) 0 =
      HttpOut.okJson 200 (search "hello" (Except.error ()) 0) :=
  ⟨rfl, rfl⟩

/-- Claim C10 (amended): when the query string binds `q` more than once, the
first occurrence with a non-blank value is the one used — blank-valued
occurrences are dropped by query-string parsing — and every occurrence after
that first non-blank one is ignored: the handler's response over the full
parameter list equals its response with all later pairs dropped. -/
theorem first_nonblank_q_wins (ps₁ ps₂ : List (String × String)) (v : String)
    (hv : v ≠ "") (h : ∀ p ∈ ps₁, p.1 ≠ "q" ∨ p.2 = "")
    (fetched : Except Unit WikiPayload) (d : ℚ) :
    qsFirst (ps₁ ++ ("q", v) :: ps₂) "q" = some v ∧
    doGetApiSearch (ps₁ ++ ("q", v) :: ps₂) fetched d =
      doGetApiSearch (ps₁ ++ [("q", v)]) fetched d := by
  have h1 : qsFirst (ps₁ ++ ("q", v) :: ps₂) "q" = some v := qsFirst_head ps₂ v hv ps₁ h
  have h2 : qsFirst (ps₁ ++ [("q", v)]) "q" = some v := qsFirst_head [] v hv ps₁ h
  refine ⟨h1, ?_⟩
  simp only [doGetApiSearch, h1, h2]

/-- Witness for C10 (amended): a blank `q`, then `q=hello`, then `q=later`;
the first non-blank value `"hello"` wins and the trailing pair is ignored. -/
theorem first_nonblank_q_wins_witness :
    ("hello" : String) ≠ "" ∧
      (∀ p ∈ [(("q" : String), ("" : String))], p.1 ≠ "q" ∨ p.2 = "") ∧
      (qsFirst ([("q", "")] ++ ("q", "hello") :: [("q", "later")]) "q" = some "hello" ∧
        doGetApiSearch ([("q", "")] ++ ("q", "hello") :: [("q", "later")])
            (Except.error ()) 0 =
          doGetApiSearch ([("q", "")] ++ [("q", "hello")]) (Except.error ()) 0) :=
  ⟨by decide, by decide,
    first_nonblank_q_wins [("q", "")] [("q", "later")] "hello" (by decide) (by decide)
      (Except.error ()) 0⟩
